import Mathlib

/-!
# Verification of the "cup generator" pipeline

Shallow embedding of the numerical/geometric core of the repository:

* `projetocopoversaooficial.py` — streamlit app: `make_f_func`, `calcular_volume`,
  `gerar_mesh` (wall grid 150 × 100, clamped radius, base disk from the wall's
  radius at z = 0, broad catch-and-return-zero / catch-and-return-None).
* `copo_pyvista_polares.py` — CLI: `make_f_func` (raises on bad expressions,
  probes at z = 0), `volume_polar_numeric` (no clamp), `gerar_mesh_pyvista`,
  `criar_fundo_pyvista`, `main` (validates the radius profile and aborts on a
  negative sample).
* `src/unnamed/part_000` — near-duplicate streamlit variants (base disk built
  from the raw `r0`).

Real numbers stand for Python floats (the idealised real-arithmetic reading);
`Option` models raised-vs-returned: `none` is an exception escaping a function,
and the broad `except:` branches of the source map `none` back to the zero /
`None` defaults the source returns.
-/

/-- Expression language of the user-supplied radial function `f(z)`, modelling
the numexpr expressions `make_f_func` evaluates: the variable `z`, numeric
literals, the bound name `pi`, the functions `sin`, `cos`, `exp`, `sqrt`,
arithmetic, and `ident s` for a reference to a name that is not bound in the
evaluation dictionary (numexpr raises on such a reference). -/
inductive Expr where
  | num (q : ℚ)
  | var
  | pi
  | ident (s : String)
  | add (a b : Expr)
  | sub (a b : Expr)
  | mul (a b : Expr)
  | neg (a : Expr)
  | sin (a : Expr)
  | cos (a : Expr)
  | exp (a : Expr)
  | sqrt (a : Expr)

/-- Whether numexpr evaluation of the expression succeeds: it fails exactly on
a reference to an unbound name (`ident`), independently of the value of `z`
(numexpr name resolution happens before any numeric work). -/
def exprOk : Expr → Bool
  | .num _ => true
  | .var => true
  | .pi => true
  | .ident _ => false
  | .add a b => exprOk a && exprOk b
  | .sub a b => exprOk a && exprOk b
  | .mul a b => exprOk a && exprOk b
  | .neg a => exprOk a
  | .sin a => exprOk a
  | .cos a => exprOk a
  | .exp a => exprOk a
  | .sqrt a => exprOk a

/-! ## Combinatorial model of the mesh built by `gerar_mesh`
(`projetocopoversaooficial.py`, lines 47–94).

The wall is a `pv.StructuredGrid` with `dimensions = [n_theta, n_z, 1]`,
`n_theta = 100`, `n_z = 150`; its point at angular index `i` and height index
`j` has flat id `100 * j + i`.  `extract_surface().triangulate()` turns each
grid quad into two triangles with a fixed diagonal (VTK splits the quad
`(p0, p1, p2, p3)` into `(p0, p1, p2)` and `(p0, p2, p3)`).  The base disk
`pv.Circle(radius, resolution=100).triangulate().flip_normals()` is a polygon
of 100 rim points fan-triangulated (98 triangles, winding reversed by
`flip_normals`); after `wall_mesh + bottom` its points are appended after the
15000 wall points, so its ids start at 15000.  `.clean()` merges coincident
points, modelled by the vertex relabelling `weld` below. -/

/-- Flat vertex id of the wall lattice point at height row `j`, angular column
`i` (`n_theta = 100` columns). -/
def vid (j i : ℕ) : ℕ := 100 * j + i

/-- The two triangles `triangulate` produces from the wall quad with lower-left
corner `(j, i)`: fixed-diagonal split of the quad
`(vid j i, vid j (i+1), vid (j+1) (i+1), vid (j+1) i)`. -/
def quadTris (j i : ℕ) : List (ℕ × ℕ × ℕ) :=
  [(vid j i, vid j (i+1), vid (j+1) (i+1)), (vid j i, vid (j+1) (i+1), vid (j+1) i)]

/-- All wall triangles: one quad per `(j, i)` with `j < n_z - 1 = 149` and
`i < n_theta - 1 = 99`. -/
def wallTris : List (ℕ × ℕ × ℕ) :=
  (List.range 149).flatMap (fun j => (List.range 99).flatMap (fun i => quadTris j i))

/-- Base-disk triangles: fan triangulation of the 100-point circle polygon,
ids offset by the 15000 wall points, winding reversed by `flip_normals`. -/
def diskTris : List (ℕ × ℕ × ℕ) :=
  (List.range 98).map (fun k => (15000, 15002 + k, 15001 + k))

/-- Triangles of `combined = wall_mesh + bottom`. -/
def combinedTris : List (ℕ × ℕ × ℕ) := wallTris ++ diskTris

/-- Vertex relabelling performed by `.clean()` for a valid scenario-A input
(`r0 = 3, H = 5, f ≡ 0`): in exact arithmetic the coincident points are the
angular-seam columns (`θ = 2π` column `i = 99` merges onto `θ = 0` column
`i = 0` of the same row) and the disk rim point at angle 0, which sits exactly
on the wall's bottom-ring point `vid 0 0 = 0`.  No other points coincide. -/
def weld (v : ℕ) : ℕ :=
  if v < 15000 then (if v % 100 = 99 then v - 99 else v)
  else (if v = 15000 then 0 else v)

/-- `weld` applied to the three corners of a triangle. -/
def weldTri (t : ℕ × ℕ × ℕ) : ℕ × ℕ × ℕ := (weld t.1, weld t.2.1, weld t.2.2)

/-- Triangle list after `.clean()`: every triangle relabelled by `weld`. -/
def cleanTris (ts : List (ℕ × ℕ × ℕ)) : List (ℕ × ℕ × ℕ) := ts.map weldTri

/-- Whether the unordered edge `{a, b}` is one of the three edges of the
triangle `t`. -/
def hasEdge (t : ℕ × ℕ × ℕ) (a b : ℕ) : Bool :=
  ((t.1 == a && t.2.1 == b) || (t.1 == b && t.2.1 == a)) ||
  ((t.2.1 == a && t.2.2 == b) || (t.2.1 == b && t.2.2 == a)) ||
  ((t.2.2 == a && t.1 == b) || (t.2.2 == b && t.1 == a))

/-- Number of triangles of `ts` having `{a, b}` as an edge. -/
def edgeTriCount : List (ℕ × ℕ × ℕ) → ℕ → ℕ → ℕ
  | [], _, _ => 0
  | t :: ts, a, b => (if hasEdge t a b then 1 else 0) + edgeTriCount ts a b

/-- An edge shared by exactly one triangle is a boundary edge of the surface. -/
def isBoundaryEdge (ts : List (ℕ × ℕ × ℕ)) (a b : ℕ) : Bool :=
  edgeTriCount ts a b == 1

noncomputable section

/-- Value of an expression at a height `z`: the numexpr evaluation performed
inside `make_f_func` (`np.sin`, `np.cos`, `np.exp`, `np.sqrt`, `np.pi`).  An
unbound `ident` has no value; numexpr raises there, which the callers model
separately via `exprOk` (the value `0` returned here is never exposed by a
caller without the `exprOk` guard). -/
def evalExpr : Expr → ℝ → ℝ
  | .num q, _ => (q : ℝ)
  | .var, z => z
  | .pi, _ => Real.pi
  | .ident _, _ => 0
  | .add a b, z => evalExpr a z + evalExpr b z
  | .sub a b, z => evalExpr a z - evalExpr b z
  | .mul a b, z => evalExpr a z * evalExpr b z
  | .neg a, z => -(evalExpr a z)
  | .sin a, z => Real.sin (evalExpr a z)
  | .cos a, z => Real.cos (evalExpr a z)
  | .exp a, z => Real.exp (evalExpr a z)
  | .sqrt a, z => Real.sqrt (evalExpr a z)

/-- `np.linspace a b n`: `n` evenly spaced samples over `[a, b]`, inclusive of
both endpoints (`x i = a + i * (b - a) / (n - 1)`); `[a]` for `n = 1`, `[]`
for `n = 0`. -/
def linspace (a b : ℝ) (n : ℕ) : List ℝ :=
  (List.range n).map (fun i : ℕ => a + (i : ℝ) * ((b - a) / ((n : ℝ) - 1)))

/-- `np.trapezoid ys xs` (= `np.trapz`): trapezoidal rule
`Σ (y i + y (i+1)) / 2 * (x (i+1) - x i)` over consecutive samples. -/
def trapz : List ℝ → List ℝ → ℝ
  | y1 :: y2 :: ys, x1 :: x2 :: xs =>
      (y1 + y2) / 2 * (x2 - x1) + trapz (y2 :: ys) (x2 :: xs)
  | _, _ => 0

/-- `make_f_func` of `projetocopoversaooficial.py` (lines 25–34): the returned
`f` evaluates the expression over the whole array and, on any evaluation
failure, catches the exception and returns `np.zeros_like(z)`.  Construction
itself never fails and `f` never raises. -/
def make_f_func (e : Expr) : List ℝ → Option (List ℝ) :=
  fun zs => some (if exprOk e then zs.map (evalExpr e) else zs.map (fun _ => 0))

/-- The inner `f` of `make_f_func` in `copo_pyvista_polares.py` (lines 23–28):
evaluates the expression over the array and re-raises (`ValueError`) on any
evaluation failure — `none` models the escaping exception. -/
def f_cli (e : Expr) : List ℝ → Option (List ℝ) :=
  fun zs => if exprOk e then some (zs.map (evalExpr e)) else none

/-- `make_f_func` of `copo_pyvista_polares.py` (lines 18–34): builds `f`, then
probes `f(0.0)`; if the probe raises, construction fails with `ValueError`
(`none`), otherwise the function is returned. -/
def make_f_func_cli (e : Expr) : Option (List ℝ → Option (List ℝ)) :=
  (f_cli e [0]).elim none (fun _ => some (f_cli e))

/-- `calcular_volume` of `projetocopoversaooficial.py` (lines 36–45):
`Z = linspace 0 H n_z`, `Rz = max(r0 + f(Z), 0)` elementwise,
`area = π Rz²`, `np.trapezoid(area, Z)`; any exception inside the `try`
(modelled by `f Z = none`) is swallowed and `0.0` returned. -/
def calcular_volume (r0 H : ℝ) (f : List ℝ → Option (List ℝ)) (n_z : ℕ) : ℝ :=
  let Z := linspace 0 H n_z
  (f Z).elim 0 (fun fz =>
    trapz ((fz.map (fun v => max (r0 + v) 0)).map (fun r => Real.pi * r ^ 2)) Z)

/-- `volume_polar_numeric` of `copo_pyvista_polares.py` (lines 43–51): same
integral without the clamp and without an exception handler (an evaluation
failure propagates to the caller). -/
def volume_polar_numeric (r0 H : ℝ) (f : List ℝ → Option (List ℝ)) (n_z : ℕ) :
    Option ℝ :=
  let Z := linspace 0 H n_z
  (f Z).map (fun fz => trapz (fz.map (fun v => Real.pi * (r0 + v) ^ 2)) Z)

/-- Data of the mesh returned by `gerar_mesh`: the clamped radius profile of
the wall rows, the radius used for the base disk, and the combined triangle
connectivity (which is independent of the numeric input). -/
structure MeshData where
  Rg : List ℝ
  baseDiskRadius : ℝ
  tris : List (ℕ × ℕ × ℕ)

/-- `gerar_mesh` of `projetocopoversaooficial.py` (lines 47–94): samples
`Z = linspace 0 H 150`, computes the clamped wall radii
`Rg = max(r0 + f(Z), 0)` and the base radius
`raio_base_real = max(r0 + f([0.0])[0], 0)`; any exception inside the `try`
returns `None`; otherwise the wall grid plus the base disk is returned. -/
def gerar_mesh (r0 H : ℝ) (f : List ℝ → Option (List ℝ)) : Option MeshData :=
  let Z := linspace 0 H 150
  (f Z).elim none (fun fz =>
    (f [0]).elim none (fun f0 =>
      some { Rg := fz.map (fun v => max (r0 + v) 0)
             baseDiskRadius := max (r0 + f0.headD 0) 0
             tris := combinedTris }))

/-- Triangle list carried by an optional mesh (empty when no mesh). -/
def meshTrisOf (o : Option MeshData) : List (ℕ × ℕ × ℕ) :=
  (o.map MeshData.tris).getD []

/-- Cartesian position of the wall-lattice vertex of `gerar_mesh` at angular
index `i`, height index `j`: `θ` from `linspace 0 (2π) nθ` (inclusive of both
endpoints), `z` from `linspace 0 H nz`, radius `max(r0 + g z, 0)`, position
`(r cos θ, r sin θ, z)` (source lines 52–54 and 68–71). -/
def wallPoint (r0 H : ℝ) (g : ℝ → ℝ) (nθ nz i j : ℕ) : ℝ × ℝ × ℝ :=
  let θ := ((linspace 0 (2 * Real.pi) nθ).get? i).getD 0
  let z := ((linspace 0 H nz).get? j).getD 0
  let r := max (r0 + g z) 0
  (r * Real.cos θ, r * Real.sin θ, z)

/-- Wall-lattice vertex of `gerar_mesh_pyvista` in `copo_pyvista_polares.py`
(lines 56–67): same lattice but the radius `r0 + f(z)` is not clamped. -/
def pyvistaWallPoint (r0 H : ℝ) (g : ℝ → ℝ) (nθ nz i j : ℕ) : ℝ × ℝ × ℝ :=
  let θ := ((linspace 0 (2 * Real.pi) nθ).get? i).getD 0
  let z := ((linspace 0 H nz).get? j).getD 0
  let r := r0 + g z
  (r * Real.cos θ, r * Real.sin θ, z)

/-- `criar_fundo_pyvista` of `copo_pyvista_polares.py` (lines 72–79): rim
points of the base disk, a circle of the given radius sampled at
`linspace 0 (2π) n` in the plane `z = 0`.  `main` (line 113) calls it with the
raw `args.r0`. -/
def criar_fundo_points (r0 : ℝ) (n : ℕ) : List (ℝ × ℝ × ℝ) :=
  (linspace 0 (2 * Real.pi) n).map (fun θ => (r0 * Real.cos θ, r0 * Real.sin θ, 0))

/-- The geometry validation of `main` in `copo_pyvista_polares.py`
(lines 102–106) fires: `Rt = r0 + f(linspace 0 H 50)` has a negative entry, so
`main` raises `SystemExit` before any volume or mesh work. -/
def main_geometry_error (r0 H : ℝ) (f : List ℝ → Option (List ℝ)) : Prop :=
  ∃ l, f (linspace 0 H 50) = some l ∧ ∃ v ∈ l, r0 + v < 0

/-- One request to the pipeline of `projetocopoversaooficial.py`
(lines 144–151): the `(baseRadius, height, expression, resolution)` tuple. -/
structure Params where
  r0 : ℝ
  H : ℝ
  e : Expr
  n_z : ℕ

/-- One full pipeline invocation: build the radial function from the
expression, compute the volume and the mesh (source lines 145–151). -/
def pipelineRun (p : Params) : ℝ × Option MeshData :=
  (calcular_volume p.r0 p.H (make_f_func p.e) p.n_z,
   gerar_mesh p.r0 p.H (make_f_func p.e))

end

/-! ## Basic lemmas about `trapz` and `linspace` -/

lemma trapz_nil_left (xs : List ℝ) : trapz [] xs = 0 := by
  cases xs <;> rfl

lemma trapz_single_left (y : ℝ) (xs : List ℝ) : trapz [y] xs = 0 := by
  cases xs with
  | nil => rfl
  | cons x xt => cases xt <;> rfl

lemma trapz_nil_right (ys : List ℝ) : trapz ys [] = 0 := by
  cases ys with
  | nil => rfl
  | cons y yt => cases yt <;> rfl

lemma trapz_single_right (ys : List ℝ) (x : ℝ) : trapz ys [x] = 0 := by
  cases ys with
  | nil => rfl
  | cons y yt => cases yt <;> rfl

lemma trapz_cons₂ (y1 y2 x1 x2 : ℝ) (ys xs : List ℝ) :
    trapz (y1 :: y2 :: ys) (x1 :: x2 :: xs) =
      (y1 + y2) / 2 * (x2 - x1) + trapz (y2 :: ys) (x2 :: xs) := rfl

/-- The trapezoidal rule integrates a constant sample list exactly:
`c * (last - first)`. -/
lemma trapz_map_const (c : ℝ) :
    ∀ xs : List ℝ,
      trapz (xs.map (fun _ => c)) xs = c * ((xs.getLast?).getD 0 - (xs.head?).getD 0)
  | [] => by simp [trapz_nil_left]
  | [x] => by simp [trapz_single_left]
  | x1 :: x2 :: xs => by
      have ih := trapz_map_const c (x2 :: xs)
      simp only [List.map_cons] at ih ⊢
      rw [trapz_cons₂, ih, List.getLast?_cons_cons]
      simp only [List.head?_cons, Option.getD_some]
      ring

/-- Monotonicity of the trapezoidal rule in the sample values, over a
nondecreasing abscissa list. -/
lemma trapz_mono :
    ∀ {ys ys' : List ℝ}, List.Forall₂ (· ≤ ·) ys ys' →
      ∀ {xs : List ℝ}, List.Chain' (· ≤ ·) xs → trapz ys xs ≤ trapz ys' xs := by
  intro ys ys' h
  induction h with
  | nil => intro xs _; simp [trapz_nil_left]
  | @cons a b t t' hab ht ih =>
    intro xs hxs
    cases ht with
    | nil => simp [trapz_single_left]
    | @cons a2 b2 t2 t2' hab2 ht2 =>
      cases xs with
      | nil => simp [trapz_nil_right]
      | cons x1 xt =>
        cases xt with
        | nil => simp [trapz_single_right]
        | cons x2 xt2 =>
          rw [trapz_cons₂, trapz_cons₂]
          have hx12 : x1 ≤ x2 := (List.chain'_cons.mp hxs).1
          have hrec := @ih (x2 :: xt2) (List.chain'_cons.mp hxs).2
          have hmul : (a + a2) / 2 * (x2 - x1) ≤ (b + b2) / 2 * (x2 - x1) := by
            apply mul_le_mul_of_nonneg_right _ (by linarith)
            linarith
          linarith

/-- Pointwise comparison of two maps of the same list. -/
lemma forall₂_map_map {α : Type} (l : List α) (f g : α → ℝ)
    (h : ∀ x ∈ l, f x ≤ g x) : List.Forall₂ (· ≤ ·) (l.map f) (l.map g) := by
  induction l with
  | nil => exact List.Forall₂.nil
  | cons x xs ih =>
    exact List.Forall₂.cons (h x (List.mem_cons_self x xs))
      (ih (fun y hy => h y (List.mem_cons_of_mem x hy)))

lemma linspace_head? (a b : ℝ) (n : ℕ) (h : 1 ≤ n) :
    (linspace a b n).head? = some a := by
  obtain ⟨m, rfl⟩ := Nat.exists_eq_add_of_le h
  rw [Nat.add_comm, linspace, List.range_succ_eq_map]
  simp

lemma getLast?_map_range {α : Type} (g : ℕ → α) (m : ℕ) :
    ((List.range (m + 1)).map g).getLast? = some (g m) := by
  rw [List.range_succ, List.map_append, List.map_cons, List.map_nil,
    List.getLast?_concat]

lemma linspace_getLast? (a b : ℝ) (n : ℕ) (h : 2 ≤ n) :
    (linspace a b n).getLast? = some b := by
  obtain ⟨m, rfl⟩ := Nat.exists_eq_add_of_le h
  rw [Nat.add_comm, linspace, getLast?_map_range]
  congr 1
  have h2 : ((m + 2 : ℕ) : ℝ) - 1 = (m : ℝ) + 1 := by push_cast; ring
  have h1 : ((m + 1 : ℕ) : ℝ) = (m : ℝ) + 1 := by push_cast; ring
  rw [h1, h2]
  have hne : (m : ℝ) + 1 ≠ 0 := by positivity
  field_simp

lemma linspace_get?_zero (a b : ℝ) (n : ℕ) (h : 1 ≤ n) :
    (linspace a b n).get? 0 = some a := by
  obtain ⟨m, rfl⟩ := Nat.exists_eq_add_of_le h
  rw [Nat.add_comm, linspace, List.range_succ_eq_map]
  simp

lemma linspace_get?_last (a b : ℝ) (n : ℕ) (h : 2 ≤ n) :
    (linspace a b n).get? (n - 1) = some b := by
  obtain ⟨m, rfl⟩ := Nat.exists_eq_add_of_le h
  rw [Nat.add_comm, linspace, List.get?_map, List.get?_range (by omega)]
  simp only [Option.map_some']
  congr 1
  have h2 : ((m + 2 : ℕ) : ℝ) - 1 = (m : ℝ) + 1 := by push_cast; ring
  have h1 : ((m + 2 - 1 : ℕ) : ℝ) = (m : ℝ) + 1 := by
    rw [show m + 2 - 1 = m + 1 from rfl]
    push_cast
    ring
  rw [h1, h2]
  have hne : (m : ℝ) + 1 ≠ 0 := by positivity
  field_simp

/-- The `linspace` samples are nondecreasing when `a ≤ b`. -/
lemma linspace_chain' (a b : ℝ) (n : ℕ) (hab : a ≤ b) :
    List.Chain' (· ≤ ·) (linspace a b n) := by
  rcases n with _ | _ | m
  · simp [linspace]
  · simp [linspace]
  · rw [linspace]
    apply List.Pairwise.chain'
    apply (List.pairwise_lt_range (m + 2)).map
    intro i j hij
    have hstep : 0 ≤ (b - a) / (((m + 2 : ℕ) : ℝ) - 1) := by
      apply div_nonneg (by linarith)
      push_cast
      linarith
    have hij' : (i : ℝ) ≤ (j : ℝ) := by exact_mod_cast hij.le
    have := mul_le_mul_of_nonneg_right hij' hstep
    linarith

/-! ## Evaluation lemmas for the volume integrator and the radial functions -/

/-- On an invalid expression, the function returned by the streamlit
`make_f_func` silently returns an all-zeros array of the input's shape. -/
lemma make_f_func_invalid (e : Expr) (he : exprOk e = false) (zs : List ℝ) :
    make_f_func e zs = some (zs.map (fun _ => 0)) := by
  rw [make_f_func, he]
  simp

/-- `calcular_volume` on a radial function whose sampled values are the
constant `c`: the integral is exact,
`π · max(r0 + c, 0)² · (last sample - first sample)`. -/
lemma calcular_volume_const (r0 H c : ℝ) (n : ℕ) (f : List ℝ → Option (List ℝ))
    (hf : f (linspace 0 H n) = some ((linspace 0 H n).map (fun _ => c))) :
    calcular_volume r0 H f n =
      Real.pi * max (r0 + c) 0 ^ 2 *
        (((linspace 0 H n).getLast?).getD 0 - ((linspace 0 H n).head?).getD 0) := by
  have hmap :
      (((linspace 0 H n).map (fun _ => c)).map (fun v => max (r0 + v) 0)).map
          (fun r => Real.pi * r ^ 2)
        = (linspace 0 H n).map (fun _ => Real.pi * max (r0 + c) 0 ^ 2) := by
    rw [List.map_map, List.map_map]
    apply List.map_congr_left
    intro x _
    rfl
  rw [calcular_volume]
  simp only [hf, Option.elim_some]
  rw [hmap, trapz_map_const]

/-- The streamlit volume integrator is exact on a constant-zero perturbation:
`calcular_volume r0 H (make_f_func "0") n = π r0² H` for every `n ≥ 2`. -/
lemma cylinder_exact (r0 H : ℝ) (n : ℕ) (hr : 0 ≤ r0) (hn : 2 ≤ n) :
    calcular_volume r0 H (make_f_func (Expr.num 0)) n = Real.pi * r0 ^ 2 * H := by
  have hf : make_f_func (Expr.num 0) (linspace 0 H n)
      = some ((linspace 0 H n).map (fun _ => 0)) := by
    rw [make_f_func]
    simp [exprOk, evalExpr]
  rw [calcular_volume_const r0 H 0 n _ hf, linspace_getLast? 0 H n hn,
    linspace_head? 0 H n (by omega)]
  rw [add_zero, max_eq_left hr]
  simp

/-- The CLI volume integrator is likewise exact on a constant-zero
perturbation (no clamp is involved). -/
lemma cylinder_exact_cli (r0 H : ℝ) (n : ℕ) (hn : 2 ≤ n) :
    volume_polar_numeric r0 H (f_cli (Expr.num 0)) n = some (Real.pi * r0 ^ 2 * H) := by
  rw [volume_polar_numeric, f_cli]
  simp only [exprOk, if_true, Option.map_some']
  congr 1
  have hmap : (linspace 0 H n).map ((fun v => Real.pi * (r0 + v) ^ 2) ∘ evalExpr (Expr.num 0))
      = (linspace 0 H n).map (fun _ => Real.pi * r0 ^ 2) := by
    apply List.map_congr_left
    intro x _
    simp [evalExpr]
  rw [List.map_map, hmap, trapz_map_const, linspace_getLast? 0 H n hn,
    linspace_head? 0 H n (by omega)]
  simp

/-! ## Boundary-edge computation for the combined mesh -/

lemma weld_le (v : ℕ) : weld v ≤ v := by
  rw [weld]
  split
  · split <;> omega
  · split <;> omega

/-- A triangle none of whose (relabelled) corners equals `a` cannot have
`{a, b}` as an edge. -/
lemma hasEdge_eq_false {t : ℕ × ℕ × ℕ} {a b : ℕ}
    (h1 : t.1 ≠ a) (h2 : t.2.1 ≠ a) (h3 : t.2.2 ≠ a) : hasEdge t a b = false := by
  simp [hasEdge, h1, h2, h3]

lemma natSum_append (l1 l2 : List ℕ) : (l1 ++ l2).sum = l1.sum + l2.sum := by
  induction l1 with
  | nil => simp
  | cons x xs ih => simp [ih, Nat.add_assoc]

lemma edgeTriCount_append (A B : List (ℕ × ℕ × ℕ)) (a b : ℕ) :
    edgeTriCount (A ++ B) a b = edgeTriCount A a b + edgeTriCount B a b := by
  induction A with
  | nil => simp [edgeTriCount]
  | cons t ts ih => simp [edgeTriCount, ih, Nat.add_assoc]

lemma cleanTris_append (A B : List (ℕ × ℕ × ℕ)) :
    cleanTris (A ++ B) = cleanTris A ++ cleanTris B :=
  List.map_append weldTri A B

/-- Welded-edge count distributes over the row/grid structure of a `flatMap`. -/
lemma edgeTriCount_clean_flatMap {α : Type} (l : List α) (g : α → List (ℕ × ℕ × ℕ))
    (a b : ℕ) :
    edgeTriCount (cleanTris (l.flatMap g)) a b =
      (l.map (fun x => edgeTriCount (cleanTris (g x)) a b)).sum := by
  induction l with
  | nil => simp [cleanTris, edgeTriCount]
  | cons x xs ih =>
    rw [List.flatMap_cons, cleanTris_append, edgeTriCount_append, ih,
      List.map_cons, List.sum_cons]

lemma edgeTriCount_eq_zero {ts : List (ℕ × ℕ × ℕ)} {a b : ℕ}
    (h : ∀ t ∈ ts, t.1 ≠ a ∧ t.2.1 ≠ a ∧ t.2.2 ≠ a) : edgeTriCount ts a b = 0 := by
  induction ts with
  | nil => rfl
  | cons t ts ih =>
    obtain ⟨h1, h2, h3⟩ := h t (List.mem_cons_self t ts)
    rw [edgeTriCount, hasEdge_eq_false h1 h2 h3]
    simp only [if_neg Bool.false_ne_true, Nat.zero_add]
    exact ih (fun s hs => h s (List.mem_cons_of_mem t hs))

/-- Welded triangles of a wall row strictly below the top row have all corners
below the top-row ids, so they contribute no triangle at a top-rim edge. -/
lemma wallRow_count_zero (j : ℕ) (hj : j < 148) :
    edgeTriCount (cleanTris ((List.range 99).flatMap (fun i => quadTris j i)))
      14900 14901 = 0 := by
  apply edgeTriCount_eq_zero
  intro t ht
  have hv : ∀ a c : ℕ, a ≤ 148 → c ≤ 99 → weld (vid a c) ≠ 14900 := by
    intro a c ha hc
    have h1 := weld_le (vid a c)
    have h2 : vid a c ≤ 14899 := by rw [vid]; omega
    omega
  simp only [cleanTris, List.mem_map, List.mem_flatMap, List.mem_range] at ht
  obtain ⟨s, ⟨i, hi, hs⟩, rfl⟩ := ht
  simp only [quadTris, List.mem_cons, List.not_mem_nil, or_false] at hs
  rcases hs with rfl | rfl
  · exact ⟨hv _ _ (by omega) (by omega), hv _ _ (by omega) (by omega),
      hv _ _ (by omega) (by omega)⟩
  · exact ⟨hv _ _ (by omega) (by omega), hv _ _ (by omega) (by omega),
      hv _ _ (by omega) (by omega)⟩

set_option maxRecDepth 10000 in
/-- In the welded combined mesh, the top-rim edge between the top-row vertices
at angular columns 0 and 1 lies in exactly one triangle: the upper triangle of
the quad `(148, 0)`.  The wall's top ring is therefore a boundary. -/
lemma topRim_edge_count :
    edgeTriCount (cleanTris combinedTris) 14900 14901 = 1 := by
  rw [combinedTris, cleanTris_append, edgeTriCount_append, wallTris,
    edgeTriCount_clean_flatMap]
  have hr149 : List.range 149 = List.range 148 ++ [148] := by
    rw [show (149 : ℕ) = 148 + 1 from rfl]
    exact List.range_succ 148
  rw [hr149, List.map_append, natSum_append]
  have h0 : ((List.range 148).map (fun j =>
      edgeTriCount (cleanTris ((List.range 99).flatMap (fun i => quadTris j i)))
        14900 14901)).sum = 0 := by
    apply List.sum_eq_zero
    intro x hx
    simp only [List.mem_map, List.mem_range] at hx
    obtain ⟨j, hj, rfl⟩ := hx
    exact wallRow_count_zero j hj
  rw [h0, Nat.zero_add, List.map_cons, List.map_nil, List.sum_cons,
    List.sum_nil, Nat.add_zero]
  decide

/-! ## Further helper lemmas -/

lemma headD_map_of_head? {l : List ℝ} {x : ℝ} (h : l.head? = some x)
    (f : ℝ → ℝ) (d : ℝ) : (l.map f).headD d = f x := by
  cases l with
  | nil => simp at h
  | cons a t =>
    simp only [List.head?_cons, Option.some_inj] at h
    subst h
    rfl

lemma make_f_func_neg5 (zs : List ℝ) :
    make_f_func (Expr.neg (Expr.num 5)) zs = some (zs.map (fun _ => (-5 : ℝ))) := by
  simp [make_f_func, exprOk, evalExpr]

/-! ## Claim theorems -/

/-- Claim C1, counterexample.  The claim says that on the input
`baseRadius = 1, H = 2, f(z) = -5` (whose radius profile is negative
everywhere) the pipeline returns a `GeometryInvalid` error and produces no
clamped volume or mesh.  In `projetocopoversaooficial.py` the opposite
happens: `calcular_volume` clamps the radius to `0` and returns the clamped
volume `0.0`, and `gerar_mesh` returns a mesh (`isSome`), with no error. -/
theorem negative_profile_still_produces_results :
    calcular_volume 1 2 (make_f_func (Expr.neg (Expr.num 5))) 1000 = 0 ∧
    (gerar_mesh 1 2 (make_f_func (Expr.neg (Expr.num 5)))).isSome = true := by
  constructor
  · rw [calcular_volume_const 1 2 (-5) 1000 _ (make_f_func_neg5 _)]
    have hmax : max ((1 : ℝ) + (-5)) 0 = 0 := max_eq_right (by norm_num)
    rw [hmax]
    ring
  · rfl

/-- Claim C1, amended.  On `baseRadius = 1, H = 2, f(z) = -5` the CLI
(`copo_pyvista_polares.main`, lines 102–106) detects the negative sampled
radius and aborts before any volume or mesh work, while the streamlit app
silently clamps: `calcular_volume` returns the clamped volume `0.0` and
`gerar_mesh` returns a mesh. -/
theorem negative_profile_cli_rejects_app_clamps :
    main_geometry_error 1 2 (make_f_func (Expr.neg (Expr.num 5))) ∧
    calcular_volume 1 2 (make_f_func (Expr.neg (Expr.num 5))) 1000 = 0 ∧
    (gerar_mesh 1 2 (make_f_func (Expr.neg (Expr.num 5)))).isSome = true := by
  refine ⟨?_, ?_, rfl⟩
  · refine ⟨(linspace 0 2 50).map (fun _ => (-5 : ℝ)), make_f_func_neg5 _, -5, ?_, by norm_num⟩
    exact List.mem_map_of_mem _
      (List.mem_of_mem_head? (linspace_head? 0 2 50 (by omega)))
  · rw [calcular_volume_const 1 2 (-5) 1000 _ (make_f_func_neg5 _)]
    have hmax : max ((1 : ℝ) + (-5)) 0 = 0 := max_eq_right (by norm_num)
    rw [hmax]
    ring

/-- Claim C2, counterexample.  The claim says no evaluation/integration
failure is replaced by a zero default.  In `projetocopoversaooficial.py`,
the function built by `make_f_func` from the invalid expression
`"undefined_symbol"` returns an all-zeros array instead of surfacing an
error, and `calcular_volume` returns `0.0` when the radial function raises. -/
theorem swallowed_failure_returns_zero_defaults :
    make_f_func (Expr.ident "undefined_symbol") [0, 1] = some [0, 0] ∧
    calcular_volume 1 2 (fun _ => none) 1000 = 0 := by
  constructor
  · have h := make_f_func_invalid (Expr.ident "undefined_symbol") rfl [0, 1]
    simpa using h
  · simp [calcular_volume]

/-- Claim C2, amended.  Failures are replaced by zero defaults, not surfaced:
whenever the radial function raises (`none`), `calcular_volume` swallows the
exception and returns `0.0`; and for every invalid expression, the function
returned by the streamlit `make_f_func` returns an all-zeros array of the
input's shape instead of an error. -/
theorem failures_replaced_by_zero_defaults :
    (∀ (r0 H : ℝ) (n : ℕ) (f : List ℝ → Option (List ℝ)),
        f (linspace 0 H n) = none → calcular_volume r0 H f n = 0) ∧
    (∀ (e : Expr) (zs : List ℝ), exprOk e = false →
        make_f_func e zs = some (zs.map (fun _ => 0))) := by
  constructor
  · intro r0 H n f hf
    simp [calcular_volume, hf]
  · intro e zs he
    exact make_f_func_invalid e he zs

/-- Witness for the amended claim C2 at concrete inputs. -/
theorem failures_replaced_by_zero_defaults_witness :
    calcular_volume 1 2 (fun _ => none) 1000 = 0 ∧
    make_f_func (Expr.ident "undefined_symbol") [3] = some [0] := by
  constructor
  · exact failures_replaced_by_zero_defaults.1 1 2 1000 (fun _ => none) rfl
  · have h := failures_replaced_by_zero_defaults.2 (Expr.ident "undefined_symbol") [3] rfl
    simpa using h

/-- Claim C3.  For the constant-zero radial function and any
`baseRadius ≥ 0`, the volume integrator at `n_z = 1000` is within `0.1%`
relative error of the closed-form cylinder volume `π·r0²·H` (in exact
arithmetic it is exact, hence error `0`); for `H = 0` it returns exactly `0`;
and the CLI integrator `volume_polar_numeric` returns the same exact value. -/
theorem cylinder_closed_form_within_tolerance (r0 H : ℝ) (hr : 0 ≤ r0) (hH : 0 ≤ H) :
    |calcular_volume r0 H (make_f_func (Expr.num 0)) 1000 - Real.pi * r0 ^ 2 * H| ≤
      0.001 * (Real.pi * r0 ^ 2 * H) ∧
    calcular_volume r0 0 (make_f_func (Expr.num 0)) 1000 = 0 ∧
    volume_polar_numeric r0 H (f_cli (Expr.num 0)) 1000 =
      some (Real.pi * r0 ^ 2 * H) := by
  refine ⟨?_, ?_, cylinder_exact_cli r0 H 1000 (by omega)⟩
  · rw [cylinder_exact r0 H 1000 hr (by omega)]
    have hnn : 0 ≤ Real.pi * r0 ^ 2 * H :=
      mul_nonneg (mul_nonneg Real.pi_nonneg (sq_nonneg r0)) hH
    rw [sub_self, abs_zero]
    linarith
  · rw [cylinder_exact r0 0 1000 hr (by omega)]
    ring

/-- Witness for claim C3 at `baseRadius = 3, H = 5` (scenario A). -/
theorem cylinder_closed_form_within_tolerance_witness :
    |calcular_volume 3 5 (make_f_func (Expr.num 0)) 1000 - Real.pi * 3 ^ 2 * 5| ≤
      0.001 * (Real.pi * 3 ^ 2 * 5) ∧
    calcular_volume 3 0 (make_f_func (Expr.num 0)) 1000 = 0 ∧
    volume_polar_numeric 3 5 (f_cli (Expr.num 0)) 1000 =
      some (Real.pi * 3 ^ 2 * 5) :=
  cylinder_closed_form_within_tolerance 3 5 (by norm_num) (by norm_num)

/-- Claim C6, counterexample.  The claim says every invalid expression is
rejected with an error at construction time.  The streamlit `make_f_func`
(`projetocopoversaooficial.py`, lines 25–34) performs no construction-time
validation: for `"undefined_symbol"` it returns a function, and that function
silently evaluates to zeros. -/
theorem app_constructor_accepts_invalid_expression :
    make_f_func (Expr.ident "undefined_symbol") [0] = some [0] := by
  have h := make_f_func_invalid (Expr.ident "undefined_symbol") rfl [0]
  simpa using h

/-- Claim C6, amended.  Only the CLI constructor (`copo_pyvista_polares.py`,
lines 18–34) rejects at construction time: it probes the function at
`z = 0` and raises `ValueError` for every expression whose evaluation fails;
the streamlit constructor never fails and zeroes instead. -/
theorem cli_constructor_rejects_invalid_expression (e : Expr)
    (he : exprOk e = false) : make_f_func_cli e = none := by
  simp [make_f_func_cli, f_cli, he]

/-- Witness for the amended claim C6 on the expression `"undefined_symbol"`. -/
theorem cli_constructor_rejects_invalid_expression_witness :
    make_f_func_cli (Expr.ident "undefined_symbol") = none :=
  cli_constructor_rejects_invalid_expression (Expr.ident "undefined_symbol") rfl

/-- Claim C8, counterexample.  The claim says increasing `n_z` strictly
decreases the absolute error against the closed-form cylinder volume for
every smooth `f`.  For the smooth `f ≡ 0` (`baseRadius = 1, H = 1`) the
trapezoidal rule is already exact at every `n_z ≥ 2`, so the error is `0` at
`n_z = 2` and `0` at `n_z = 3` — not a strict decrease. -/
theorem refinement_error_not_strictly_decreasing :
    ¬ (|calcular_volume 1 1 (make_f_func (Expr.num 0)) 3 - Real.pi * 1 ^ 2 * 1| <
        |calcular_volume 1 1 (make_f_func (Expr.num 0)) 2 - Real.pi * 1 ^ 2 * 1|) := by
  rw [cylinder_exact 1 1 3 (by norm_num) (by omega),
    cylinder_exact 1 1 2 (by norm_num) (by omega)]
  simp

/-- Claim C8, amended.  For the smooth radial function `f ≡ 0` the absolute
error of `calcular_volume` against the closed-form cylinder volume is exactly
`0` for every `n_z ≥ 2`: refinement never increases the error, but it does
not strictly decrease it either. -/
theorem cylinder_refinement_error_zero (r0 H : ℝ) (n : ℕ) (hr : 0 ≤ r0)
    (hn : 2 ≤ n) :
    |calcular_volume r0 H (make_f_func (Expr.num 0)) n - Real.pi * r0 ^ 2 * H| = 0 := by
  rw [cylinder_exact r0 H n hr hn, sub_self, abs_zero]

/-- Witness for the amended claim C8 at `r0 = 1, H = 2, n_z = 2`. -/
theorem cylinder_refinement_error_zero_witness :
    |calcular_volume 1 2 (make_f_func (Expr.num 0)) 2 - Real.pi * 1 ^ 2 * 2| = 0 :=
  cylinder_refinement_error_zero 1 2 2 (by norm_num) (by omega)

/-- Claim C10.  For fixed `H > 0`, `n_z ≥ 2` and any radial function, the
volume computed by `calcular_volume` is monotone nondecreasing in
`baseRadius` over `baseRadius ≥ 0`: the clamped radius
`max(baseRadius + f(z), 0)` is nondecreasing in `baseRadius` pointwise, and
the trapezoidal rule preserves the pointwise order. -/
theorem volume_monotone_in_base_radius (r0 r0' H : ℝ)
    (f : List ℝ → Option (List ℝ)) (n : ℕ) (hH : 0 < H) (hn : 2 ≤ n)
    (h0 : 0 ≤ r0) (h01 : r0 ≤ r0') :
    calcular_volume r0 H f n ≤ calcular_volume r0' H f n := by
  simp only [calcular_volume]
  cases hf : f (linspace 0 H n) with
  | none => simp
  | some fz =>
    simp only [Option.elim_some]
    rw [List.map_map, List.map_map]
    apply trapz_mono
    · apply forall₂_map_map
      intro v _
      simp only [Function.comp_apply]
      apply mul_le_mul_of_nonneg_left _ Real.pi_nonneg
      exact pow_le_pow_left (le_max_right _ _)
        (max_le_max (by linarith) le_rfl) 2
    · exact linspace_chain' 0 H n (le_of_lt hH)

/-- Witness for claim C10 at `r0 = 1 ≤ 2 = r0'`, `H = 1`, `n_z = 2`. -/
theorem volume_monotone_in_base_radius_witness :
    calcular_volume 1 1 (make_f_func (Expr.num 0)) 2 ≤
      calcular_volume 2 1 (make_f_func (Expr.num 0)) 2 :=
  volume_monotone_in_base_radius 1 2 1 (make_f_func (Expr.num 0)) 2
    (by norm_num) (by omega) (by norm_num) (by norm_num)

/-- Claim C4, counterexample.  The claim says the final combined triangle
surface has zero boundary edges for every valid input.  On the valid
scenario-A input `r0 = 3, H = 5, f ≡ 0`, the top-rim edge
`{vid 149 0, vid 149 1} = {14900, 14901}` of the welded combined mesh lies in
exactly one triangle — the cup is open at the top, so the surface has a
boundary. -/
theorem combined_mesh_top_rim_edge_is_boundary :
    edgeTriCount
      (cleanTris (meshTrisOf (gerar_mesh 3 5 (make_f_func (Expr.num 0)))))
      14900 14901 = 1 := by
  have hm : meshTrisOf (gerar_mesh 3 5 (make_f_func (Expr.num 0))) = combinedTris := rfl
  rw [hm]
  exact topRim_edge_count

/-- Claim C4, amended.  The combined wall-plus-base surface produced by
`gerar_mesh` is not closed: it has at least one boundary edge (an edge shared
by exactly one triangle), namely along the open top rim of the wall.  The
zero-boundary-edge invariant claimed by the spec fails. -/
theorem combined_mesh_has_boundary_edges :
    ∃ a b : ℕ, isBoundaryEdge
      (cleanTris (meshTrisOf (gerar_mesh 3 5 (make_f_func (Expr.num 0))))) a b
        = true := by
  refine ⟨14900, 14901, ?_⟩
  have hm : meshTrisOf (gerar_mesh 3 5 (make_f_func (Expr.num 0))) = combinedTris := rfl
  rw [hm, isBoundaryEdge, topRim_edge_count]
  rfl

/-- Claim C5, counterexample.  The claim says the base disk radius always
equals the wall's actual radius at `z = 0`.  In `copo_pyvista_polares.py`,
`main` builds the base disk with the raw `args.r0` (line 113): for
`r0 = 3, f(z) = z + 1`, the disk rim point at angle `0` is `(3, 0, 0)` while
the wall's bottom-ring point at angle `0` is `(4, 0, 0)` — a radial gap of
`1` at the seam. -/
theorem cli_base_disk_ignores_wall_radius :
    (criar_fundo_points 3 256).head? = some (3, 0, 0) ∧
    pyvistaWallPoint 3 2 (evalExpr (Expr.add Expr.var (Expr.num 1))) 240 300 0 0
      = (4, 0, 0) ∧
    ((3 : ℝ), (0 : ℝ), (0 : ℝ)) ≠ ((4 : ℝ), (0 : ℝ), (0 : ℝ)) := by
  refine ⟨?_, ?_, ?_⟩
  · rw [criar_fundo_points, List.head?_map,
      linspace_head? 0 (2 * Real.pi) 256 (by omega)]
    simp
  · simp only [pyvistaWallPoint]
    rw [linspace_get?_zero 0 (2 * Real.pi) 240 (by omega),
      linspace_get?_zero 0 2 300 (by omega)]
    simp only [Option.getD_some, evalExpr, Real.cos_zero, Real.sin_zero]
    norm_num
  · simp only [ne_eq, Prod.mk.injEq, not_and]
    intro h
    norm_num at h

/-- Claim C5, amended.  Only `projetocopoversaooficial.gerar_mesh` derives
the base-disk radius from the wall's actual clamped radius at `z = 0`
(`raio_base_real = max(r0 + f(0), 0)`, source lines 61–63): for every input
on which it returns a mesh, its base-disk radius equals the first entry of
the wall's clamped radius profile.  The CLI `main` and the unnamed variants
use the raw `baseRadius` instead. -/
theorem app_base_disk_matches_wall_radius (r0 H : ℝ) (e : Expr) (m : MeshData)
    (h : gerar_mesh r0 H (make_f_func e) = some m) :
    m.baseDiskRadius = m.Rg.headD 0 := by
  have hZ : (linspace 0 H 150).head? = some 0 := linspace_head? 0 H 150 (by omega)
  by_cases hok : exprOk e
  · simp only [gerar_mesh, make_f_func, hok, if_true, Option.elim_some,
      Option.some_inj] at h
    subst h
    have h1 : ((linspace 0 H 150).map (evalExpr e)).head? = some (evalExpr e 0) := by
      rw [List.head?_map, hZ]
      rfl
    show max (r0 + ([(0 : ℝ)].map (evalExpr e)).headD 0) 0 =
      (((linspace 0 H 150).map (evalExpr e)).map (fun v => max (r0 + v) 0)).headD 0
    rw [headD_map_of_head? h1]
    rfl
  · rw [Bool.not_eq_true] at hok
    simp only [gerar_mesh, make_f_func, hok, Bool.false_eq_true, if_false,
      Option.elim_some, Option.some_inj] at h
    subst h
    have h1 : ((linspace 0 H 150).map (fun _ => (0 : ℝ))).head? = some 0 := by
      rw [List.head?_map, hZ]
      rfl
    show max (r0 + ([(0 : ℝ)].map (fun _ => (0 : ℝ))).headD 0) 0 =
      (((linspace 0 H 150).map (fun _ => (0 : ℝ))).map (fun v => max (r0 + v) 0)).headD 0
    rw [headD_map_of_head? h1]
    rfl

/-- Witness for the amended claim C5 at `r0 = 3, H = 5, f ≡ 0`. -/
theorem app_base_disk_matches_wall_radius_witness :
    ∃ m : MeshData, gerar_mesh 3 5 (make_f_func (Expr.num 0)) = some m ∧
      m.baseDiskRadius = m.Rg.headD 0 :=
  ⟨_, rfl, app_base_disk_matches_wall_radius 3 5 (Expr.num 0) _ rfl⟩

/-- Claim C7.  The mesh builders sample `θ` with
`np.linspace 0 (2π) n_theta`, inclusive of both endpoints, and in exact
arithmetic the wall-lattice vertex at angular index `0` coincides exactly
(hence within any floating-point tolerance) with the vertex at the last
angular index `n_theta - 1`, at every height index. -/
theorem theta_rings_coincide_at_seam (r0 H : ℝ) (g : ℝ → ℝ) (nθ nz j : ℕ)
    (h : 2 ≤ nθ) :
    (linspace 0 (2 * Real.pi) nθ).head? = some 0 ∧
    (linspace 0 (2 * Real.pi) nθ).getLast? = some (2 * Real.pi) ∧
    wallPoint r0 H g nθ nz 0 j = wallPoint r0 H g nθ nz (nθ - 1) j := by
  refine ⟨linspace_head? _ _ _ (by omega), linspace_getLast? _ _ _ h, ?_⟩
  simp only [wallPoint]
  rw [linspace_get?_zero 0 (2 * Real.pi) nθ (by omega),
    linspace_get?_last 0 (2 * Real.pi) nθ h]
  simp [Real.cos_two_pi, Real.sin_two_pi]

/-- Witness for claim C7 at the resolutions of `gerar_mesh`
(`n_theta = 100`, `n_z = 150`) with `r0 = 3, H = 5, f ≡ 0`. -/
theorem theta_rings_coincide_at_seam_witness :
    (linspace 0 (2 * Real.pi) 100).head? = some 0 ∧
    (linspace 0 (2 * Real.pi) 100).getLast? = some (2 * Real.pi) ∧
    wallPoint 3 5 (fun _ => 0) 100 150 0 0 = wallPoint 3 5 (fun _ => 0) 100 150 99 0 :=
  theta_rings_coincide_at_seam 3 5 (fun _ => 0) 100 150 0 (by omega)

/-- Claim C9.  The pipeline is deterministic and stateless across
invocations: in any two request sequences, invocations carrying equal
`(baseRadius, height, expression, resolution)` tuples produce equal
`(volume, mesh)` results — the result of `pipelineRun` depends only on the
request's parameters, never on the position in the sequence or on other
requests. -/
theorem pipeline_deterministic_and_stateless (ps qs : List Params) (i j : ℕ)
    (hi : i < ps.length) (hj : j < qs.length)
    (hi' : i < (ps.map pipelineRun).length) (hj' : j < (qs.map pipelineRun).length)
    (h : ps.get ⟨i, hi⟩ = qs.get ⟨j, hj⟩) :
    (ps.map pipelineRun).get ⟨i, hi'⟩ = (qs.map pipelineRun).get ⟨j, hj'⟩ := by
  rw [List.get_map, List.get_map, h]

/-- Witness for claim C9: the same request at different positions of two
different sequences yields the same result. -/
theorem pipeline_deterministic_and_stateless_witness :
    (([⟨3, 5, Expr.num 0, 1000⟩] : List Params).map pipelineRun).get ⟨0, by simp⟩ =
      (([⟨3, 5, Expr.num 0, 1000⟩, ⟨3, 5, Expr.num 0, 1000⟩] : List Params).map
        pipelineRun).get ⟨1, by simp⟩ :=
  pipeline_deterministic_and_stateless _ _ 0 1 (by simp) (by simp) (by simp)
    (by simp) rfl
